import Mathlib

/-!
Shallow embedding of the retrieval-fusion and anti-hallucination core of the
chatbot repository: the allowlist normalization/enforcement, model-token
regex scanning, reciprocal-rank fusion, fused-allowlist confidence tiering,
context-budget trimming (src/app.py) and the requirement-elicitation finite
state machine (src/decision.py).  Python strings are modelled as Lean
`String` (a list of unicode code points, matching Python's `len`/indexing);
Python floats in BM25 scores are modelled as real numbers; Python's ASCII
case mapping and whitespace are modelled on the character ranges that occur
in this repository (ASCII plus CJK, which is caseless).
-/

namespace ChatbotCore

/-- ASCII lowercase mapping, as Python `str.lower` acts on this corpus
(non-ASCII characters here are caseless CJK). -/
def lowerChar (c : Char) : Char := c.toLower

/-- `[A-Za-z]` (code points 65-90 and 97-122). -/
def isAsciiLetter (c : Char) : Bool :=
  (65 ≤ c.toNat && c.toNat ≤ 90) || (97 ≤ c.toNat && c.toNat ≤ 122)

/-- `[0-9]` (code points 48-57). -/
def isAsciiDigit (c : Char) : Bool := 48 ≤ c.toNat && c.toNat ≤ 57

/-- `[a-z0-9]`: the characters kept by `normalize_key` after lowercasing. -/
def isLowerAlnum (c : Char) : Bool :=
  (97 ≤ c.toNat && c.toNat ≤ 122) || isAsciiDigit c

/-- The trailing character class `[A-Za-z0-9\-]` of `MODEL_REGEX`
(`-` is code point 45). -/
def isTrailChar (c : Char) : Bool := isAsciiLetter c || isAsciiDigit c || c.toNat == 45

/-- Python regex word character (`\w`), used for `\b` word boundaries:
ASCII alphanumerics, underscore, and kana/CJK ideographs (the scripts
appearing in this repository's data; CJK punctuation such as `、`, `「`,
`：` and full-width parentheses is not a word character, as in Python). -/
def isWordChar (c : Char) : Bool :=
  isAsciiLetter c || isAsciiDigit c || c.toNat == 95 ||
    (0x3040 ≤ c.toNat && c.toNat ≤ 0x9FFF)

/-- Python whitespace on the ASCII range (str.strip default). -/
def isPySpace (c : Char) : Bool :=
  c.toNat == 32 || c.toNat == 9 || c.toNat == 10 || c.toNat == 13 ||
    c.toNat == 11 || c.toNat == 12

/-- Python `s.strip()` on a character list. -/
def pyStripList (l : List Char) : List Char :=
  ((l.dropWhile isPySpace).reverse.dropWhile isPySpace).reverse

/-- Python `s.strip()`. -/
def pyStrip (s : String) : String := ⟨pyStripList s.data⟩

/-- Python `s.rstrip()` on a character list. -/
def pyRstripList (l : List Char) : List Char :=
  (l.reverse.dropWhile isPySpace).reverse

/-- Python `s.lower()` (ASCII-faithful, see module comment). -/
def strLower (s : String) : String := ⟨s.data.map lowerChar⟩

/-- Python substring containment `sub in s` on character lists. -/
def listHasSub (s sub : List Char) : Bool :=
  match s with
  | [] => sub.isEmpty
  | _ :: rest => sub.isPrefixOf s || listHasSub rest sub

/-- Python `sub in s` for strings. -/
def strIn (sub s : String) : Bool := listHasSub s.data sub.data

/-- `normalize_key` (src/app.py:279): strip, lowercase, delete every
character outside `[a-z0-9]`. -/
def normalize_key (s : String) : String :=
  ⟨((pyStripList s.data).map lowerChar).filter isLowerAlnum⟩

/-- `truncate_text` (src/app.py:270): strip; if longer than `maxChars`,
keep `maxChars - 1` characters, right-strip, and append an ellipsis. -/
def truncate_text (s : String) (maxChars : Nat) : String :=
  let t := pyStripList s.data
  if t.isEmpty then ""
  else if t.length ≤ maxChars then ⟨t⟩
  else ⟨pyRstripList (t.take (maxChars - 1)) ++ ['…']⟩

/-!
`MODEL_REGEX = \b([A-Za-z]{1,}\-?\d{2,}[A-Za-z0-9\-]*)\b` (src/app.py:609),
embedded as an explicit leftmost / greedy / backtracking matcher, exactly the
semantics of Python `re.findall` for this pattern: at a start position with a
word boundary, the maximal letter run, an optional hyphen (taken only when at
least two digits follow it), at least two digits, then a greedy run of the
trailing class, backtracked to the longest end position forming a word
boundary.
-/

/-- Word-boundary test between a last consumed character and the next
character (`none` = end of input, which is a non-word position). -/
def bnd (a : Char) (b : Option Char) : Bool :=
  isWordChar a != (match b with | some c => isWordChar c | none => false)

/-- Longest prefix `keep` of `tail` such that a word boundary holds right
after `keep` (the following character being the next of `tail`, or the head
of `rest`, or end of input); `lastC` is the character just before `tail`. -/
def chooseEnd (lastC : Char) : List Char → List Char → Option (List Char)
  | [], rest => if bnd lastC rest.head? then some [] else none
  | c :: tl, rest =>
    match chooseEnd c tl rest with
    | some k => some (c :: k)
    | none => if bnd lastC (some c) then some [] else none

/-- Attempt to match `MODEL_REGEX` at the start of `s` (the caller has
already checked the word boundary before `s`).  Returns the matched token;
the scan resumes at `s.drop token.length`. -/
def matchTok (s : List Char) : Option (List Char) :=
  let L := s.takeWhile isAsciiLetter
  let r1 := s.dropWhile isAsciiLetter
  if L.isEmpty then none
  else
    let hyp : Bool :=
      match r1 with
      | '-' :: r1t => 2 ≤ (r1t.takeWhile isAsciiDigit).length
      | _ => false
    let H : List Char := if hyp then ['-'] else []
    let r2 := if hyp then r1.tail else r1
    let D := r2.takeWhile isAsciiDigit
    let r3 := r2.dropWhile isAsciiDigit
    if D.length < 2 then none
    else
      let T := r3.takeWhile isTrailChar
      let r4 := r3.dropWhile isTrailChar
      let core := L ++ H ++ D.take 2
      let tail := D.drop 2 ++ T
      match chooseEnd (core.getLastD ' ') tail r4 with
      | some keep => some (core ++ keep)
      | none => none

/-- Scanner for `re.findall(MODEL_REGEX, ·)`: try every position whose
preceding character is not a word character and whose own character is a
letter; on a match emit the token and resume right after it.  `fuel` is an
upper bound on the number of scan steps (each step consumes at least one
character). -/
def startBoundaryOk (prev : Option Char) : Bool :=
  match prev with | none => true | some p => !isWordChar p

def findallAux : Nat → Option Char → List Char → List (List Char)
  | 0, _, _ => []
  | _ + 1, _, [] => []
  | fuel + 1, prev, c :: rest =>
    let startOk := startBoundaryOk prev && isAsciiLetter c
    if startOk then
      match matchTok (c :: rest) with
      | some tok =>
        tok :: findallAux fuel (some (tok.getLastD c)) ((c :: rest).drop tok.length)
      | none => findallAux fuel (some c) rest
    else findallAux fuel (some c) rest

/-- `MODEL_REGEX.findall(s)`. -/
def modelRegexFindall (s : String) : List String :=
  (findallAux s.data.length none s.data).map fun l => ⟨l⟩

/-- `has_model_token` (src/app.py:613): the regex matches somewhere. -/
def has_model_token (s : String) : Bool := !(modelRegexFindall s).isEmpty

/-- Order-preserving dedup of already-lowercased keys, tracking the set of
keys seen so far — the `seen` pattern used throughout src/app.py. -/
def dedupeByLowerAux (seen : List String) : List String → List String
  | [] => []
  | x :: xs =>
    let x' := pyStrip x
    if x' = "" then dedupeByLowerAux seen xs
    else if seen.contains (strLower x') then dedupeByLowerAux seen xs
    else x' :: dedupeByLowerAux (strLower x' :: seen) xs

/-- `extract_model_mentions` (src/app.py:1900): all regex matches, stripped,
deduplicated by lowercase, order preserved. -/
def extract_model_mentions (text : String) : List String :=
  dedupeByLowerAux [] (modelRegexFindall text)

/-!
`Config` (src/app.py:130-160): environment-derived switches, embedded with
their default values (the values taken when no environment override is
present, which is the deployment the spec describes).
-/

namespace Config

def STRICT_DECISION_ALLOWLIST : Bool := true

def ALLOWLIST_MAX_ITEMS : Nat := 24

def FUSION_ENABLED : Bool := true

def FUSION_RRF_K : Nat := 60

def FUSION_VEC_TOPN : Nat := 10

def FUSION_BM25_TOPN : Nat := 10

def FUSION_FORCE_NONEMPTY : Bool := true

def FUSION_LOWCONF_ALLOW_ALL : Bool := true

def FUSION_LOWCONF_MIN_ALLOW : Nat := 12

end Config

/-- The fixed clarification template returned by `enforce_allowlist_or_block`
when the (normalized) allowlist is empty (src/app.py:1923-1930). -/
def emptyAllowlistSafeMessage : String :=
  "我可以幫你選型，但目前資料庫/產品文件沒有足夠的候選型號可供推薦，" ++
  "因此我不會亂編型號。\n\n" ++
  "請你補 1~2 個關鍵資訊後我再幫你配對：\n" ++
  "1) 你要量測的項目（光譜/輝度/照度/光強度/反射率/穿透率/PPFD…）\n" ++
  "2) 主要波段或對象（UVC LED / UVA / VIS / 玻璃 / 鏡面…）\n"

/-- The fixed blocked-answer template, which enumerates the current
allowlist joined with `、` (src/app.py:1941-1947). -/
def blockedSafeMessage (allowlist : List String) : String :=
  "⚠️ 為避免選型亂編，我只能從資料庫/產品文件中「確實存在」的型號做推薦。\n" ++
  "但我剛剛那段回覆中出現了資料庫不存在的型號，因此已被系統擋下。\n\n" ++
  "目前可用的候選型號清單如下：\n" ++
  String.intercalate "、" allowlist ++ "\n\n" ++
  "請你回覆：你希望我從以上清單中，偏向「研發」還是「產線/品管」用途？"

/-- `allow_norm`: the normalized keys of the truthy allowlist entries
(a Python set, modelled as a list whose membership is the set membership). -/
def allowNormList (allowlist : List String) : List String :=
  (allowlist.filter (fun x => x ≠ "")).map normalize_key

/-- `bad`: the model mentions of the answer whose normalized key is not in
the normalized allowlist (src/app.py:1932-1936). -/
def enforceBad (answer : String) (allowlist : List String) : List String :=
  (extract_model_mentions answer).filter
    (fun m => !((allowNormList allowlist).contains (normalize_key m)))

/-- `enforce_allowlist_or_block` (src/app.py:1918): under the strict gate,
an empty normalized allowlist short-circuits to the clarification template;
otherwise every regex mention whose `normalize_key` is not in the normalized
allowlist is a violation, and any violation replaces the answer with the
blocked template.  Returns (text, blocked, bad_models). -/
def enforce_allowlist_or_block (strict : Bool) (answer : String)
    (allowlist : List String) : String × Bool × List String :=
  if !strict then (answer, false, [])
  else if (allowNormList allowlist).isEmpty then (emptyAllowlistSafeMessage, true, [])
  else if (enforceBad answer allowlist).isEmpty then (answer, false, [])
  else (blockedSafeMessage allowlist, true, enforceBad answer allowlist)

/-!
Reciprocal-rank fusion (`rrf_fuse`, src/app.py:1669) and the fused-allowlist
builder (`build_fused_allowlist`, src/app.py:1682).  Python dict insertion
order is modelled by an association list in first-insertion order; Python's
stable `sorted(..., reverse=True)` is modelled by a stable descending
insertion sort.  Scores are exact rationals (the float arithmetic on these
small reciprocals is exact enough that all comparisons the code makes
coincide with the rational ones).
-/

/-- An RRF score: an exact nonnegative fraction `num/den` (`den` positive by
construction).  The code sums float reciprocals `1/(k+rank)`; on these
magnitudes every comparison the code performs agrees with the exact rational
comparison, so scores are modelled exactly, unreduced. -/
abbrev ScoreFrac := Nat × Nat

/-- `num/den` as a rational. -/
def ScoreFrac.toQ (x : ScoreFrac) : ℚ := (x.1 : ℚ) / (x.2 : ℚ)

/-- Exact fraction addition (no reduction). -/
def fracAdd (x y : ScoreFrac) : ScoreFrac := (x.1 * y.2 + y.1 * x.2, x.2 * y.2)

/-- `x < y` on fractions with positive denominators, by cross
multiplication. -/
def fracLt (x y : ScoreFrac) : Bool := x.1 * y.2 < y.1 * x.2

/-- Add `inc` to `item`'s score, keeping first-insertion order (Python
`defaultdict` + dict iteration order). -/
def bumpScore (acc : List (String × ScoreFrac)) (item : String) (inc : ScoreFrac) :
    List (String × ScoreFrac) :=
  if acc.any (fun p => p.1 = item) then
    acc.map (fun p => if p.1 = item then (p.1, fracAdd p.2 inc) else p)
  else acc ++ [(item, inc)]

/-- Fold one ranked list into the score map; `rank` is 1-based; empty
(falsy) items are skipped; the increment is `1/(k+rank)`. -/
def rrfAddList (k : Nat) :
    List (String × ScoreFrac) → Nat → List String → List (String × ScoreFrac)
  | acc, _, [] => acc
  | acc, rank, x :: xs =>
    let acc' := if x = "" then acc else bumpScore acc x (1, k + rank)
    rrfAddList k acc' (rank + 1) xs

/-- Stable descending insertion: `x` goes before the first entry whose score
is not greater (so equal scores keep original order, as Python's stable
`sorted` with `reverse=True`). -/
def insertDesc (x : String × ScoreFrac) :
    List (String × ScoreFrac) → List (String × ScoreFrac)
  | [] => [x]
  | y :: ys => if fracLt x.2 y.2 then y :: insertDesc x ys else x :: y :: ys

/-- Stable sort by score, descending. -/
def sortDesc : List (String × ScoreFrac) → List (String × ScoreFrac)
  | [] => []
  | x :: xs => insertDesc x (sortDesc xs)

/-- `rrf_fuse` (src/app.py:1669): sum `1/(k+rank)` over the lists, sort by
score descending (stable), return the top `topn` keys. -/
def rrf_fuse (ranked_lists : List (List String)) (k : Nat := 60)
    (topn : Nat := 24) : List String :=
  let score := ranked_lists.foldl (fun acc lst => rrfAddList k acc 1 lst) []
  if score.isEmpty then []
  else ((sortDesc score).map (fun p => p.1)).take topn

/-- Distinct lowercased keys of a list, in first-occurrence order —
`set(x.lower() for x in l)` viewed as a list. -/
def distinctLowers (l : List String) : List String :=
  (l.map strLower).foldl (fun acc x => if acc.contains x then acc else acc ++ [x]) []

/-- `len(set(lower a) & set(lower b))`. -/
def overlapCount (a b : List String) : Nat :=
  ((distinctLowers a).filter (fun x => (b.map strLower).contains x)).length

/-- Python `a or b` on lists. -/
def pyOrList (a b : List String) : List String := if a.isEmpty then b else a

/-- Fusion observability metadata (the `meta` dict of
`build_fused_allowlist`).  The code's `overlap_ratio` float is the fraction
`overlap / denomR`, carried here as numerator and denominator (the code logs
it rounded to 3 decimals; the tier comparisons below are exact, which
coincides with the float comparisons on these magnitudes). -/
structure FusionMeta where
  enabled : Bool
  overlap : Nat
  denomR : Nat
  kAllow : Nat
  lowConfidence : Bool
  deriving Repr, DecidableEq

/-- The `overlap_ratio` value of the fusion metadata, as a rational. -/
def FusionMeta.ratioQ (m : FusionMeta) : ℚ := (m.overlap : ℚ) / (m.denomR : ℚ)

/-- `bm_candidates = (bm25_models or [])[:max(12, FUSION_BM25_TOPN)]`. -/
def fusionCandidatesBm (bm25_models : List String) : List String :=
  bm25_models.take (max 12 Config.FUSION_BM25_TOPN)

/-- `vec_candidates = extract_candidate_models_from_rag(..., limit=max(12,
FUSION_VEC_TOPN))` — the extraction itself is an input here, the limit is
its final slice. -/
def fusionCandidatesVec (vec_candidates_raw : List String) : List String :=
  vec_candidates_raw.take (max 12 Config.FUSION_VEC_TOPN)

/-- `fused = rrf_fuse(...)` with the source's clamped `k` and `topn`. -/
def fusionFused (bm25_models vec_candidates_raw : List String) : List String :=
  rrf_fuse [fusionCandidatesBm bm25_models, fusionCandidatesVec vec_candidates_raw]
    (max 10 Config.FUSION_RRF_K) (max 8 Config.ALLOWLIST_MAX_ITEMS)

/-- `overlap = len(set(lower bm) & set(lower vec))` — over the FULL candidate
lists, not their top-8 prefixes. -/
def fusionOverlap (bm25_models vec_candidates_raw : List String) : Nat :=
  overlapCount (fusionCandidatesBm bm25_models) (fusionCandidatesVec vec_candidates_raw)

/-- The denominator `max(1, min(len(bm), len(vec), 8))` of `overlap_ratio`. -/
def fusionDenom (bm25_models vec_candidates_raw : List String) : Nat :=
  max 1 (min (min (fusionCandidatesBm bm25_models).length
    (fusionCandidatesVec vec_candidates_raw).length) 8)

/-- The confidence tiering on `overlap_ratio = overlap/denom`:
`ratio ≥ 0.25` is the exact `denom ≤ 4*overlap` and `ratio > 0` is
`overlap > 0` (both coincide with the float comparisons). -/
def fusionKAllow (bm25_models vec_candidates_raw : List String) : Nat :=
  if fusionDenom bm25_models vec_candidates_raw ≤
      4 * fusionOverlap bm25_models vec_candidates_raw then 8
  else if 0 < fusionOverlap bm25_models vec_candidates_raw then 12
  else max Config.FUSION_LOWCONF_MIN_ALLOW 12

/-- `allow = fused[:min(ALLOWLIST_MAX_ITEMS, k_allow)]` before the
empty-fusion fallback. -/
def fusionAllowPre (bm25_models vec_candidates_raw : List String) : List String :=
  (fusionFused bm25_models vec_candidates_raw).take
    (min Config.ALLOWLIST_MAX_ITEMS (fusionKAllow bm25_models vec_candidates_raw))

/-- The empty-fusion fallback (src/app.py:1715-1721): pair of the final
allow list and the `low_conf` flag. -/
def fusionAllowLow (known_models bm25_models vec_candidates_raw : List String) :
    List String × Bool :=
  if (fusionAllowPre bm25_models vec_candidates_raw).isEmpty &&
      Config.FUSION_FORCE_NONEMPTY then
    if Config.FUSION_LOWCONF_ALLOW_ALL && !known_models.isEmpty then
      (known_models.take Config.ALLOWLIST_MAX_ITEMS, true)
    else
      (pyOrList ((fusionCandidatesBm bm25_models).take Config.ALLOWLIST_MAX_ITEMS)
        ((fusionCandidatesVec vec_candidates_raw).take Config.ALLOWLIST_MAX_ITEMS),
        true)
  else (fusionAllowPre bm25_models vec_candidates_raw, false)

/-- `build_fused_allowlist` (src/app.py:1682-1735), assembled from the named
pieces above.  `known_models` is the catalog's `md_index.known_models`;
`bm25_models` the lexical candidates; `vec_candidates_raw` the output of
`extract_candidate_models_from_rag`. -/
def build_fused_allowlist (known_models bm25_models vec_candidates_raw : List String) :
    List String × FusionMeta :=
  if !Config.FUSION_ENABLED then ([], ⟨false, 0, 1, 0, false⟩)
  else
    ((fusionAllowLow known_models bm25_models vec_candidates_raw).1,
      ⟨true, fusionOverlap bm25_models vec_candidates_raw,
        fusionDenom bm25_models vec_candidates_raw,
        fusionKAllow bm25_models vec_candidates_raw,
        (fusionAllowLow known_models bm25_models vec_candidates_raw).2⟩)

/-- The `/chat` handler's pre-generation allowlist merge
(src/app.py:2613-2623): concatenate the document-evidence allowlist with the
fused allowlist, strip the entries, skip empty ones, and deduplicate by
`x.lower()` — note: by lowercase only, not by `normalize_key`. -/
def merge_allowlists (base_allow fused_allow : List String) : List String :=
  dedupeByLowerAux [] (base_allow ++ fused_allow)

/-- The `/chat` handler's final allowlist selection (src/app.py:2625-2630):
if the merge came out empty and forcing is on and the catalog knows models,
substitute the full known-model list; then cap to the configured maximum. -/
def chat_allowlist (known_models base_allow fused_allow : List String) :
    List String :=
  (if (merge_allowlists base_allow fused_allow).isEmpty &&
      Config.FUSION_FORCE_NONEMPTY && !known_models.isEmpty then
    known_models.take Config.ALLOWLIST_MAX_ITEMS
  else merge_allowlists base_allow fused_allow).take Config.ALLOWLIST_MAX_ITEMS

/-!
`prompt_guard_trim` (src/app.py:1507-1563): the context-budget trimmer.
Blocks are labeled strings; `build` renders a full prompt from the current
block list; budget comparisons are on rendered length (`len`, i.e. code
points).
-/

/-- Vector-snippet block labels (`is_rag` in the source). -/
def isRag (b : String) : Bool :=
  "【向量庫片段：".data.isPrefixOf b.data || "【資料片段：".data.isPrefixOf b.data

/-- Catalog-summary block labels (`is_db` in the source). -/
def isDb (b : String) : Bool := "【DB 產品摘要：".data.isPrefixOf b.data

/-- Remove the last element satisfying `p` (`blocks.pop(idxs[-1])`);
`none` when no element satisfies `p`. -/
def popLastMatching (p : String → Bool) : List String → Option (List String)
  | [] => none
  | b :: bs =>
    match popLastMatching p bs with
    | some bs' => some (b :: bs')
    | none => if p b then some bs else none

/-- One category-drop loop of the trimmer: while the rendered prompt is over
budget, pop the last block of the category; stop when none remain.  `fuel`
bounds the number of iterations; each iteration removes one block, so the
initial block count (passed by `dropLoop`) is always sufficient: with no
fuel left the block list is empty, on which the loop would exit anyway. -/
def dropLoopAux (p : String → Bool) (build : List String → String) (maxc : Nat) :
    Nat → List String → List String
  | 0, blocks => blocks
  | fuel + 1, blocks =>
    if (build blocks).length ≤ maxc then blocks
    else
      match popLastMatching p blocks with
      | none => blocks
      | some blocks' => dropLoopAux p build maxc fuel blocks'

/-- The `while len(p) > max_chars` category-drop loop of the trimmer. -/
def dropLoop (p : String → Bool) (build : List String → String) (maxc : Nat)
    (blocks : List String) : List String :=
  dropLoopAux p build maxc blocks.length blocks

/-- Truncate the body of a document-excerpt block to 700 characters
(the `【產品文件：` branch of the trimmer). -/
def truncDocBlock (b : String) : String :=
  if "【產品文件：".data.isPrefixOf b.data then
    let headPart := b.data.takeWhile (fun c => c ≠ '\n')
    let restPart := b.data.dropWhile (fun c => c ≠ '\n')
    match restPart with
    | [] => b
    | _ :: body => ⟨headPart⟩ ++ "\n" ++ truncate_text ⟨body⟩ 700
  else b

/-- Final phase: drop trailing blocks of any kind while over budget, but
never below 2 blocks.  Fuel-bounded as in `dropLoopAux`; the loop stops at
2 blocks, so the initial block count is always sufficient fuel. -/
def dropTailLoopAux (build : List String → String) (maxc : Nat) :
    Nat → List String → List String
  | 0, blocks => blocks
  | fuel + 1, blocks =>
    if maxc < (build blocks).length ∧ 2 < blocks.length then
      dropTailLoopAux build maxc fuel blocks.dropLast
    else blocks

/-- The final `while len(p) > max_chars and len(blocks) > 2` loop. -/
def dropTailLoop (build : List String → String) (maxc : Nat)
    (blocks : List String) : List String :=
  dropTailLoopAux build maxc blocks.length blocks

/-- `prompt_guard_trim` (src/app.py:1507): return early if within budget;
else drop vector-snippet blocks from the end, then catalog-summary blocks,
then truncate document bodies, then drop trailing blocks while more than 2
remain.  Returns the final block list and rendered prompt. -/
def prompt_guard_trim (context_blocks : List String)
    (build : List String → String) (max_chars : Nat) : List String × String :=
  let blocks := context_blocks
  let p := build blocks
  if p.length ≤ max_chars then (blocks, p)
  else
    let b1 := dropLoop isRag build max_chars blocks
    if (build b1).length ≤ max_chars then (b1, build b1)
    else
      let b2 := dropLoop isDb build max_chars b1
      if (build b2).length ≤ max_chars then (b2, build b2)
      else
        let b3 := b2.map truncDocBlock
        let b4 := dropTailLoop build max_chars b3
        (b4, build b4)

/-!
`RequirementFSM` (src/decision.py): the 3-question requirement-elicitation
state machine.  The Python state dict `{active, step, answers, finished,
last_question}` is modelled as a record; the `answers` dict as an
association list in insertion order.
-/

/-- The conversation state dict created by `new_state` and mutated by
`advance` (src/decision.py:131). -/
structure DecisionState where
  active : Bool
  step : Nat
  answers : List (String × String)
  finished : Bool
  last_question : String
  deriving Repr, DecidableEq

/-- `new_state` (src/decision.py:131). -/
def new_state : DecisionState := ⟨true, 0, [], false, ""⟩

/-- `_is_control` (src/decision.py:83): returns `"reset"`, `"cancel"` or
`""`; note there is no `"done"` outcome anywhere in the source. -/
def DecisionFSM_is_control (text : String) : String :=
  let t := strLower (pyStrip text)
  if t = "" then ""
  else if (["重來", "重新", "reset", "restart"].any (fun k => strIn k t)) then "reset"
  else if (["取消", "停止", "cancel", "stop", "結束"].any (fun k => strIn k t)) then "cancel"
  else ""

/-- `_is_unknown` (src/decision.py:134): unknown/skip detection, with the
scene-constraints exception where a bare negative is a substantive answer. -/
def DecisionFSM_is_unknown (text : String) (question_key : String) : Bool :=
  let t := strLower (pyStrip text)
  if t == "" then true
  else if question_key == "scene_constraints"
      && (["沒有", "無", "沒", "no", "none"].contains t) then false
  else if t == "-" || t == "none" then true
  else
    ["不知道", "不確定", "都可以", "隨便", "沒想法", "不清楚",
      "略過", "跳過", "skip", "na", "n/a"].any (fun tok => strIn tok t)

/-- `_questions` (src/decision.py:160): the fixed ordered list of
(key, question text). -/
def questions : List (String × String) :=
  [("target",
    "你要量什麼？（例：光譜/UVA-UVB-UVC/VIS、輝度/照度、UVC 輻照度/光強度、PPFD/PPF/PAR、積分球總光通量、反射率/穿透率、螢光粉…）"),
   ("object_band",
    "量測對象與主要波段？（例：UVC LED、醫療燈、顯示器、玻璃/鏡面；波段 UVC/UVB/UVA/VIS/NIR；或 275nm/365nm；不確定也可）"),
   ("scene_constraints",
    "使用情境與限制？（研發/產線/品管/客製；是否要速度/自動化/報表；預算或尺寸限制；沒有就回「沒有」）")]

/-- `state.setdefault("answers", {})[key] = v`: update the key in place, or
append it (dict insertion order). -/
def setAnswer (answers : List (String × String)) (k v : String) :
    List (String × String) :=
  if answers.any (fun p => p.1 = k) then
    answers.map (fun p => if p.1 = k then (k, v) else p)
  else answers ++ [(k, v)]

/-- `advance` (src/decision.py:178): global commands first (`reset`,
`cancel`); then initial entry (step 0, no question asked yet) emits
question 1; otherwise store the (unknown-normalized) answer for the current
question, advance the step, and either finish (past the last question) or
emit the next question. -/
def advance (state : DecisionState) (user_text : String) :
    DecisionState × String :=
  let q0 := (questions.getD 0 ("", "")).2
  let cmd := DecisionFSM_is_control user_text
  if cmd = "reset" then
    ({ new_state with last_question := q0 },
      "好的，我們重來一次。\n\nQ1️⃣ " ++ q0)
  else if cmd = "cancel" then
    ({ state with active := false, finished := false, last_question := "" },
      "已取消選型流程。你可以直接問我產品規格/比較或公司資訊。")
  else if state.step = 0 ∧ state.last_question = "" then
    ({ state with step := 0, last_question := q0 },
      "我用 3 個問題幫你快速選型。\n\nQ1️⃣ " ++ q0)
  else
    let st1 :=
      if state.step < questions.length then
        let key := (questions.getD state.step ("", "")).1
        let ans := pyStrip user_text
        let v := if DecisionFSM_is_unknown ans key then "" else ans
        { state with answers := setAnswer state.answers key v }
      else state
    let step1 := state.step + 1
    if questions.length ≤ step1 then
      ({ st1 with
          step := step1
          finished := true
          active := false
          last_question := "" },
        "收到。我整理需求後，直接給你 2~3 個候選型號、差異與建議。")
    else
      let nq := (questions.getD step1 ("", "")).2
      ({ st1 with step := step1, last_question := nq },
        "Q" ++ toString (step1 + 1) ++ "️⃣ " ++ nq)

/-!
The BM25 per-term score contribution (the inner loop of
`BM25CorpusIndex.search`, src/app.py:811-820, and identically
`ProductMDIndex.bm25_rank_models`, src/app.py:1045-1054).  Python float
arithmetic is modelled over the reals.  In the source this term is only
computed for documents with `dl > 0`, terms with `df > 0` and `f > 0`, and
query frequencies `qf ≥ 1`; `N - df ≥ 0` always holds since a term's
document frequency counts a subset of the N documents. -/
noncomputable def bm25TermScore (N df qf : ℕ) (f dl avgdl k1 b : ℝ) : ℝ :=
  Real.log (1 + ((N : ℝ) - (df : ℝ) + 0.5) / ((df : ℝ) + 0.5)) *
    (f * (k1 + 1) / (f + k1 * (1 - b + b * (dl / avgdl)))) *
    (1 + 0.15 * ((min 4 (qf - 1) : ℕ) : ℝ))

/-!
Shape of every `MODEL_REGEX` match: a nonempty letter run, an optional
single hyphen, then at least two consecutive digits, then characters of the
trailing class only.
-/

/-- What a `MODEL_REGEX` match must look like. -/
def goodModelToken (tok : List Char) : Prop :=
  ∃ L H d1 d2 rest,
    tok = L ++ H ++ d1 :: d2 :: rest ∧ L ≠ [] ∧
    (∀ c ∈ L, isAsciiLetter c = true) ∧ (H = [] ∨ H = ['-']) ∧
    isAsciiDigit d1 = true ∧ isAsciiDigit d2 = true ∧
    (∀ c ∈ rest, isTrailChar c = true)

/-- The overlap-ratio formula as the SPEC words it ("|top-8 intersection| /
min(|list1|,|list2|,8)"), for comparison against the one the code computes
— stated from the spec, not from the source. -/
def specOverlapRatioTop8 (l1 l2 : List String) : ℚ :=
  (overlapCount (l1.take 8) (l2.take 8) : ℚ) /
    ((min (min l1.length l2.length) 8 : ℕ) : ℚ)

/-- A model mention `m` of the generated answer violates `allowlist` when
its normalized key is not among the normalized nonempty allowlist keys
(the membership test of `enforce_allowlist_or_block`). -/
def violates (allowlist : List String) (m : String) : Prop :=
  normalize_key m ∉ allowNormList allowlist

instance (allowlist : List String) (m : String) :
    Decidable (violates allowlist m) := by
  unfold violates; infer_instance

/-!
## Theorems
-/

theorem string_contains_iff (l : List String) (x : String) :
    l.contains x = true ↔ x ∈ l := by
  simp

theorem allowNorm_isEmpty_false {allowlist : List String} {x : String}
    (hx : x ∈ allowlist) (hxne : x ≠ "") :
    (allowNormList allowlist).isEmpty = false := by
  have hmem : x ∈ allowlist.filter (fun y => y ≠ "") := by
    simp [List.mem_filter, hx, hxne]
  have hmap : normalize_key x ∈ allowNormList allowlist :=
    List.mem_map_of_mem _ hmem
  have hne := List.ne_nil_of_mem hmap
  simpa [List.isEmpty_iff] using hne

/-- C2, amended: for every text with no model-like tokens and every
allowlist containing at least one nonempty key, `enforce_allowlist_or_block`
returns the text unchanged with `blocked=false`; the original claim's
empty-allowlist case is refuted by
`enforce_empty_allowlist_blocks_clean_text_cex`. -/
theorem enforce_passes_clean_text (answer : String) (allowlist : List String)
    (hclean : extract_model_mentions answer = [])
    (hnz : ∃ x ∈ allowlist, x ≠ "") :
    enforce_allowlist_or_block true answer allowlist = (answer, false, []) := by
  obtain ⟨x, hx, hxne⟩ := hnz
  have hne := allowNorm_isEmpty_false hx hxne
  have hbadnil : enforceBad answer allowlist = [] := by
    unfold enforceBad; rw [hclean]; rfl
  unfold enforce_allowlist_or_block
  rw [if_neg (by simp), if_neg (by simp [hne]), if_pos (by simp [hbadnil])]

/-- C2, counterexample to the claim as stated: with an empty allowlist the
code blocks even a text containing no model-like token, returning the
clarification template instead of the text. -/
theorem enforce_empty_allowlist_blocks_clean_text_cex :
    extract_model_mentions "好的" = [] ∧
    (enforce_allowlist_or_block true "好的" []).2.1 = true ∧
    (enforce_allowlist_or_block true "好的" []).1 = emptyAllowlistSafeMessage := by
  refine ⟨by decide, by decide, by decide⟩

/-- Witness for `enforce_passes_clean_text` at a concrete input. -/
theorem enforce_passes_clean_text_witness :
    enforce_allowlist_or_block true "好的，收到" ["SRI-4000UVC"] =
      ("好的，收到", false, []) :=
  enforce_passes_clean_text "好的，收到" ["SRI-4000UVC"] (by decide)
    ⟨"SRI-4000UVC", by decide, by decide⟩

theorem mem_enforceBad_iff {answer m : String} {allowlist : List String} :
    m ∈ enforceBad answer allowlist ↔
      m ∈ extract_model_mentions answer ∧ violates allowlist m := by
  unfold enforceBad violates
  rw [List.mem_filter]
  constructor
  · rintro ⟨h1, h2⟩
    refine ⟨h1, fun hmem => ?_⟩
    simp at h2
    exact h2 hmem
  · rintro ⟨h1, h2⟩
    refine ⟨h1, ?_⟩
    simpa using h2

/-- C1, amended: for every answer and every allowlist containing at least
one nonempty key, if the answer has a model mention violating the
(normalized) allowlist then the result is blocked, the returned text is the
fixed template enumerating the allowlist verbatim (joined with `、`), and
the reported bad models are exactly the violating mentions; the function is
total, always returning this deterministic safe message.  The original
claim's quantification over every allowlist (including the empty one) is
refuted by `enforce_block_empty_allowlist_report_cex`. -/
theorem enforce_blocks_and_reports_violations (answer : String)
    (allowlist : List String) (hnz : ∃ x ∈ allowlist, x ≠ "")
    (hbad : ∃ m ∈ extract_model_mentions answer, violates allowlist m) :
    (enforce_allowlist_or_block true answer allowlist).2.1 = true ∧
    (enforce_allowlist_or_block true answer allowlist).1 =
      blockedSafeMessage allowlist ∧
    (∀ m, m ∈ (enforce_allowlist_or_block true answer allowlist).2.2 ↔
      m ∈ extract_model_mentions answer ∧ violates allowlist m) ∧
    ∃ pre post, (enforce_allowlist_or_block true answer allowlist).1 =
      pre ++ String.intercalate "、" allowlist ++ post := by
  obtain ⟨x, hx, hxne⟩ := hnz
  have hne := allowNorm_isEmpty_false hx hxne
  obtain ⟨m0, hm0, hv0⟩ := hbad
  have hmfil : m0 ∈ enforceBad answer allowlist :=
    mem_enforceBad_iff.mpr ⟨hm0, hv0⟩
  have hbadne : (enforceBad answer allowlist).isEmpty = false := by
    simpa [List.isEmpty_iff] using List.ne_nil_of_mem hmfil
  have hres : enforce_allowlist_or_block true answer allowlist =
      (blockedSafeMessage allowlist, true, enforceBad answer allowlist) := by
    unfold enforce_allowlist_or_block
    rw [if_neg (by simp), if_neg (by simp [hne]), if_neg (by simp [hbadne])]
  refine ⟨by rw [hres], by rw [hres], ?_, ?_⟩
  · intro m
    rw [hres]
    exact mem_enforceBad_iff
  · refine ⟨"⚠️ 為避免選型亂編，我只能從資料庫/產品文件中「確實存在」的型號做推薦。\n" ++
      "但我剛剛那段回覆中出現了資料庫不存在的型號，因此已被系統擋下。\n\n" ++
      "目前可用的候選型號清單如下：\n",
      "\n\n" ++ "請你回覆：你希望我從以上清單中，偏向「研發」還是「產線/品管」用途？", ?_⟩
    rw [hres]
    unfold blockedSafeMessage
    simp [String.ext_iff]

/-- C1, counterexample to the claim as stated: with an empty allowlist the
answer `"ABC-123"` has a violating model-like token, and the call is indeed
blocked, but the reported violation set is empty — not "exactly the
violating tokens" — and the returned text is the clarification template,
which does not enumerate any allowlist. -/
theorem enforce_block_empty_allowlist_report_cex :
    extract_model_mentions "ABC-123" = ["ABC-123"] ∧
    (enforce_allowlist_or_block true "ABC-123" []).2.2 = [] ∧
    (enforce_allowlist_or_block true "ABC-123" []).2.1 = true ∧
    (enforce_allowlist_or_block true "ABC-123" []).1 = emptyAllowlistSafeMessage := by
  refine ⟨by decide, by decide, by decide, by decide⟩

/-- Witness for `enforce_blocks_and_reports_violations` at a concrete
input. -/
theorem enforce_blocks_and_reports_violations_witness :
    (enforce_allowlist_or_block true "推薦 SRI-9999XYZ" ["SRI-4000UVC"]).2.1 = true ∧
    (enforce_allowlist_or_block true "推薦 SRI-9999XYZ" ["SRI-4000UVC"]).1 =
      blockedSafeMessage ["SRI-4000UVC"] ∧
    (∀ m, m ∈ (enforce_allowlist_or_block true "推薦 SRI-9999XYZ" ["SRI-4000UVC"]).2.2 ↔
      m ∈ extract_model_mentions "推薦 SRI-9999XYZ" ∧ violates ["SRI-4000UVC"] m) ∧
    ∃ pre post, (enforce_allowlist_or_block true "推薦 SRI-9999XYZ" ["SRI-4000UVC"]).1 =
      pre ++ String.intercalate "、" ["SRI-4000UVC"] ++ post :=
  enforce_blocks_and_reports_violations "推薦 SRI-9999XYZ" ["SRI-4000UVC"]
    ⟨"SRI-4000UVC", by decide, by decide⟩
    ⟨"SRI-9999XYZ", by decide, by decide⟩

theorem mem_dedupeByLowerAux :
    ∀ (l : List String) (seen : List String) (x : String),
      x ∈ dedupeByLowerAux seen l →
      strLower x ∉ seen ∧ ∃ y ∈ l, x = pyStrip y := by
  intro l
  induction l with
  | nil => intro seen x hx; simp [dedupeByLowerAux] at hx
  | cons a tl ih =>
    intro seen x hx
    simp only [dedupeByLowerAux] at hx
    by_cases ha : pyStrip a = ""
    · rw [if_pos ha] at hx
      obtain ⟨hs, y, hy, hxy⟩ := ih seen x hx
      exact ⟨hs, y, List.mem_cons_of_mem _ hy, hxy⟩
    · rw [if_neg ha] at hx
      by_cases hc : seen.contains (strLower (pyStrip a)) = true
      · rw [if_pos hc] at hx
        obtain ⟨hs, y, hy, hxy⟩ := ih seen x hx
        exact ⟨hs, y, List.mem_cons_of_mem _ hy, hxy⟩
      · rw [if_neg hc] at hx
        rcases List.mem_cons.mp hx with hx1 | hx2
        · subst hx1
          refine ⟨fun hmem => hc ?_, a, List.mem_cons_self _ _, rfl⟩
          exact (string_contains_iff _ _).mpr hmem
        · obtain ⟨hs, y, hy, hxy⟩ := ih _ x hx2
          refine ⟨fun hmem => hs (List.mem_cons_of_mem _ hmem), y,
            List.mem_cons_of_mem _ hy, hxy⟩

theorem dedupeByLowerAux_pairwise :
    ∀ (l : List String) (seen : List String),
      (dedupeByLowerAux seen l).Pairwise (fun a b => strLower a ≠ strLower b) := by
  intro l
  induction l with
  | nil => intro seen; simp [dedupeByLowerAux]
  | cons a tl ih =>
    intro seen
    simp only [dedupeByLowerAux]
    by_cases ha : pyStrip a = ""
    · rw [if_pos ha]; exact ih seen
    · rw [if_neg ha]
      by_cases hc : seen.contains (strLower (pyStrip a)) = true
      · rw [if_pos hc]; exact ih seen
      · rw [if_neg hc]
        refine List.pairwise_cons.mpr ⟨?_, ih _⟩
        intro b hb heq
        have := (mem_dedupeByLowerAux tl _ b hb).1
        exact this (heq ▸ List.mem_cons_self _ _)

/-- C5, amended: the allowlist merge/dedup of the `/chat` handler compares
keys only lowercased (entries are stripped; two merged entries never share a
lowercasing, and every entry is the strip of a source entry), while the
enforcement membership check compares under `normalize_key` (lowercase plus
stripping non-alphanumerics).  Because merging does not strip punctuation,
two spellings of one model differing by a hyphen can coexist as distinct
entries of the final allowlist, refuting the claim as stated
(`merge_keeps_hyphen_variants_cex`). -/
theorem merge_dedupes_by_lowercase_only (base fused : List String) :
    (merge_allowlists base fused).Pairwise (fun a b => strLower a ≠ strLower b) ∧
    ∀ x ∈ merge_allowlists base fused, ∃ y ∈ base ++ fused, x = pyStrip y := by
  constructor
  · exact dedupeByLowerAux_pairwise _ []
  · intro x hx
    exact (mem_dedupeByLowerAux _ [] x hx).2

/-- C5, counterexample to the claim as stated: the hyphenated and
unhyphenated spellings of the same model key survive the merge as two
distinct allowlist entries, although their `normalize_key` forms coincide
(the enforcement-side normalization would identify them). -/
theorem merge_keeps_hyphen_variants_cex :
    merge_allowlists ["SRI-4000"] ["SRI4000"] = ["SRI-4000", "SRI4000"] ∧
    normalize_key "SRI-4000" = normalize_key "SRI4000" := by
  refine ⟨by decide, by decide⟩

/-- Witness for `merge_dedupes_by_lowercase_only` at a concrete input. -/
theorem merge_dedupes_by_lowercase_only_witness :
    (merge_allowlists ["SRI-4000UVC"] ["x22"]).Pairwise
      (fun a b => strLower a ≠ strLower b) ∧
    ∃ y ∈ ["SRI-4000UVC"] ++ ["x22"], "x22" = pyStrip y :=
  ⟨(merge_dedupes_by_lowercase_only ["SRI-4000UVC"] ["x22"]).1,
    (merge_dedupes_by_lowercase_only ["SRI-4000UVC"] ["x22"]).2 "x22" (by decide)⟩

theorem bumpScore_keys (acc : List (String × ScoreFrac)) (item : String)
    (inc : ScoreFrac) (key : String)
    (h : key ∈ (bumpScore acc item inc).map Prod.fst) :
    key ∈ acc.map Prod.fst ∨ key = item := by
  unfold bumpScore at h
  by_cases hc : acc.any (fun p => p.1 = item) = true
  · rw [if_pos hc] at h
    left
    rw [List.map_map] at h
    have hfst : (Prod.fst ∘ fun p : String × ScoreFrac =>
        if p.1 = item then (p.1, fracAdd p.2 inc) else p) = Prod.fst := by
      funext p; by_cases hp : p.1 = item <;> simp [hp]
    rwa [hfst] at h
  · rw [if_neg hc, List.map_append] at h
    rcases List.mem_append.mp h with h1 | h2
    · exact Or.inl h1
    · simp at h2; exact Or.inr h2

theorem rrfAddList_keys (k : Nat) :
    ∀ (lst : List String) (acc : List (String × ScoreFrac)) (rank : Nat) (key : String),
      key ∈ (rrfAddList k acc rank lst).map Prod.fst →
      key ∈ acc.map Prod.fst ∨ key ∈ lst := by
  intro lst
  induction lst with
  | nil => intro acc rank key h; exact Or.inl h
  | cons x xs ih =>
    intro acc rank key h
    simp only [rrfAddList] at h
    by_cases hx : x = ""
    · rw [if_pos hx] at h
      rcases ih _ _ key h with h1 | h2
      · exact Or.inl h1
      · exact Or.inr (List.mem_cons_of_mem _ h2)
    · rw [if_neg hx] at h
      rcases ih _ _ key h with h1 | h2
      · rcases bumpScore_keys _ _ _ _ h1 with ha | hb
        · exact Or.inl ha
        · exact Or.inr (hb ▸ List.mem_cons_self _ _)
      · exact Or.inr (List.mem_cons_of_mem _ h2)

theorem foldl_rrf_keys (k : Nat) :
    ∀ (lists : List (List String)) (acc : List (String × ScoreFrac)) (key : String),
      key ∈ ((lists.foldl (fun a l => rrfAddList k a 1 l) acc).map Prod.fst) →
      key ∈ acc.map Prod.fst ∨ ∃ l ∈ lists, key ∈ l := by
  intro lists
  induction lists with
  | nil => intro acc key h; exact Or.inl h
  | cons l ls ih =>
    intro acc key h
    simp only [List.foldl_cons] at h
    rcases ih _ key h with h1 | h2
    · rcases rrfAddList_keys k l acc 1 key h1 with ha | hb
      · exact Or.inl ha
      · exact Or.inr ⟨l, List.mem_cons_self _ _, hb⟩
    · obtain ⟨l', hl', hk⟩ := h2
      exact Or.inr ⟨l', List.mem_cons_of_mem _ hl', hk⟩

theorem mem_insertDesc {x y : String × ScoreFrac} :
    ∀ {l : List (String × ScoreFrac)}, y ∈ insertDesc x l ↔ y = x ∨ y ∈ l := by
  intro l
  induction l with
  | nil => simp [insertDesc]
  | cons a tl ih =>
    simp only [insertDesc]
    by_cases h : fracLt x.2 a.2 = true
    · rw [if_pos h]
      simp only [List.mem_cons, ih]
      tauto
    · rw [if_neg h]
      simp only [List.mem_cons]

theorem mem_sortDesc {y : String × ScoreFrac} :
    ∀ {l : List (String × ScoreFrac)}, y ∈ sortDesc l ↔ y ∈ l := by
  intro l
  induction l with
  | nil => simp [sortDesc]
  | cons a tl ih =>
    simp only [sortDesc]
    rw [mem_insertDesc]
    simp [ih]

/-- C9: `rrf_fuse` returns at most `topn` items, and every returned item
occurs in at least one of the input ranked lists — reciprocal-rank fusion
never invents a key absent from all sources. -/
theorem rrf_fuse_bounded_and_sound (ranked_lists : List (List String))
    (k topn : Nat) :
    (rrf_fuse ranked_lists k topn).length ≤ topn ∧
    ∀ x ∈ rrf_fuse ranked_lists k topn, ∃ l ∈ ranked_lists, x ∈ l := by
  unfold rrf_fuse
  by_cases hs : ((ranked_lists.foldl (fun acc lst => rrfAddList k acc 1 lst)
      []).isEmpty) = true
  · rw [if_pos hs]
    exact ⟨Nat.zero_le _, by simp⟩
  · rw [if_neg hs]
    refine ⟨List.length_take_le _ _, ?_⟩
    intro x hx
    have hx' := List.mem_of_mem_take hx
    obtain ⟨p, hp, hpx⟩ := List.mem_map.mp hx'
    have hpm := mem_sortDesc.mp hp
    have hkey : p.1 ∈ (ranked_lists.foldl (fun acc lst => rrfAddList k acc 1 lst)
        []).map Prod.fst := List.mem_map_of_mem _ hpm
    rcases foldl_rrf_keys k ranked_lists [] p.1 hkey with h1 | h2
    · simp at h1
    · exact hpx ▸ h2

/-- Witness for `rrf_fuse_bounded_and_sound` at a concrete input. -/
theorem rrf_fuse_bounded_and_sound_witness :
    (rrf_fuse [["a"], ["b"]] 60 24).length ≤ 24 ∧ ∃ l ∈ [["a"], ["b"]], "a" ∈ l :=
  ⟨(rrf_fuse_bounded_and_sound [["a"], ["b"]] 60 24).1,
    (rrf_fuse_bounded_and_sound [["a"], ["b"]] 60 24).2 "a" (by decide)⟩

theorem fusionKAllow_pos (bm vec : List String) : 0 < fusionKAllow bm vec := by
  unfold fusionKAllow
  split_ifs <;> simp [Config.FUSION_LOWCONF_MIN_ALLOW]

theorem fusionAllowPre_isEmpty_iff (bm vec : List String) :
    (fusionAllowPre bm vec).isEmpty = true ↔ fusionFused bm vec = [] := by
  unfold fusionAllowPre
  rw [List.isEmpty_iff, List.take_eq_nil_iff]
  constructor
  · rintro (h | h)
    · have h24 : 0 < min Config.ALLOWLIST_MAX_ITEMS (fusionKAllow bm vec) :=
        lt_min (by norm_num [Config.ALLOWLIST_MAX_ITEMS]) (fusionKAllow_pos bm vec)
      omega
    · exact h
  · intro h
    exact Or.inr h

/-- C4: whenever the catalog's known-model list is non-empty (the
empty-fusion fallback being enabled by default configuration), the fusion
allowlist is never empty; when the fused list is empty the full known-model
list, bounded to the configured maximum, is substituted and the result is
marked low-confidence; and the final `/chat` allowlist built on top of it is
also never empty. -/
theorem fused_allowlist_nonempty (known_models bm25_models vec_candidates_raw :
    List String) (hkm : known_models ≠ []) :
    (build_fused_allowlist known_models bm25_models vec_candidates_raw).1 ≠ [] ∧
    (fusionFused bm25_models vec_candidates_raw = [] →
      (build_fused_allowlist known_models bm25_models vec_candidates_raw).1 =
        known_models.take Config.ALLOWLIST_MAX_ITEMS ∧
      (build_fused_allowlist known_models bm25_models
        vec_candidates_raw).2.lowConfidence = true) ∧
    (∀ base fused : List String,
      chat_allowlist known_models base fused ≠ []) := by
  have hkmE : known_models.isEmpty = false := by
    simp [List.isEmpty_iff, hkm]
  have hbuild : build_fused_allowlist known_models bm25_models vec_candidates_raw =
      ((fusionAllowLow known_models bm25_models vec_candidates_raw).1,
        ⟨true, fusionOverlap bm25_models vec_candidates_raw,
          fusionDenom bm25_models vec_candidates_raw,
          fusionKAllow bm25_models vec_candidates_raw,
          (fusionAllowLow known_models bm25_models vec_candidates_raw).2⟩) := by
    unfold build_fused_allowlist
    rw [if_neg (by simp [Config.FUSION_ENABLED])]
  refine ⟨?_, ?_, ?_⟩
  · rw [hbuild]
    unfold fusionAllowLow
    by_cases hf : (fusionAllowPre bm25_models vec_candidates_raw).isEmpty = true
    · rw [if_pos (by simp [hf, Config.FUSION_FORCE_NONEMPTY]),
        if_pos (by simp [Config.FUSION_LOWCONF_ALLOW_ALL, hkmE])]
      simp [List.take_eq_nil_iff, Config.ALLOWLIST_MAX_ITEMS, hkm]
    · rw [if_neg (by simp [hf])]
      intro hnil
      refine hf ?_
      rw [List.isEmpty_iff]
      exact hnil
  · intro hfe
    have hf : (fusionAllowPre bm25_models vec_candidates_raw).isEmpty = true :=
      (fusionAllowPre_isEmpty_iff _ _).mpr hfe
    rw [hbuild]
    unfold fusionAllowLow
    rw [if_pos (by simp [hf, Config.FUSION_FORCE_NONEMPTY]),
      if_pos (by simp [Config.FUSION_LOWCONF_ALLOW_ALL, hkmE])]
    exact ⟨rfl, rfl⟩
  · intro base fused
    unfold chat_allowlist
    by_cases hm : (merge_allowlists base fused).isEmpty = true
    · rw [if_pos (by simp [hm, Config.FUSION_FORCE_NONEMPTY, hkmE])]
      simp [List.take_eq_nil_iff, Config.ALLOWLIST_MAX_ITEMS, hkm]
    · rw [if_neg (by simp [hm])]
      have hmne : merge_allowlists base fused ≠ [] := by
        intro hnil; exact hm (by simp [List.isEmpty_iff, hnil])
      simp [List.take_eq_nil_iff, Config.ALLOWLIST_MAX_ITEMS, hmne]

/-- Witness for `fused_allowlist_nonempty` at a concrete input. -/
theorem fused_allowlist_nonempty_witness :
    (build_fused_allowlist ["SRI-4000UVC"] [] []).1 ≠ [] ∧
    (fusionFused [] [] = [] →
      (build_fused_allowlist ["SRI-4000UVC"] [] []).1 =
        (["SRI-4000UVC"] : List String).take Config.ALLOWLIST_MAX_ITEMS ∧
      (build_fused_allowlist ["SRI-4000UVC"] [] []).2.lowConfidence = true) ∧
    (∀ base fused : List String,
      chat_allowlist ["SRI-4000UVC"] base fused ≠ []) :=
  fused_allowlist_nonempty ["SRI-4000UVC"] [] [] (by decide)

/-- C3, amended: the overlap ratio the code computes is
`|lowercased intersection of the full candidate lists| /
max(1, min(|bm|, |vec|, 8))` — the numerator is over the full (up to
12-item) lists, not their top-8 prefixes as claimed, refuted by
`fusion_overlap_not_top8_cex`; a ratio ≥ 0.25 gives `k_allow = 8`, a ratio
strictly between 0 and 0.25 gives 12, and a ratio of exactly 0 gives
`max(configured minimum, 12)`; a zero ratio does not by itself mark the
result low-confidence (that flag is set only by the empty-fusion fallback,
see the counterexample). -/
theorem fusion_overlap_tiering (km bm vec : List String) :
    (build_fused_allowlist km bm vec).2.ratioQ =
      (overlapCount (bm.take 12) (vec.take 12) : ℚ) /
        ((max 1 (min (min (bm.take 12).length (vec.take 12).length) 8) : ℕ) : ℚ) ∧
    ((1 : ℚ)/4 ≤ (build_fused_allowlist km bm vec).2.ratioQ →
      (build_fused_allowlist km bm vec).2.kAllow = 8) ∧
    (0 < (build_fused_allowlist km bm vec).2.ratioQ ∧
        (build_fused_allowlist km bm vec).2.ratioQ < (1 : ℚ)/4 →
      (build_fused_allowlist km bm vec).2.kAllow = 12) ∧
    ((build_fused_allowlist km bm vec).2.ratioQ = 0 →
      (build_fused_allowlist km bm vec).2.kAllow =
        max Config.FUSION_LOWCONF_MIN_ALLOW 12) := by
  have h12bm : fusionCandidatesBm bm = bm.take 12 := by
    unfold fusionCandidatesBm; norm_num [Config.FUSION_BM25_TOPN]
  have h12vec : fusionCandidatesVec vec = vec.take 12 := by
    unfold fusionCandidatesVec; norm_num [Config.FUSION_VEC_TOPN]
  have hbuild2 : (build_fused_allowlist km bm vec).2 =
      ⟨true, fusionOverlap bm vec, fusionDenom bm vec, fusionKAllow bm vec,
        (fusionAllowLow km bm vec).2⟩ := by
    unfold build_fused_allowlist
    rw [if_neg (by simp [Config.FUSION_ENABLED])]
  rw [hbuild2]
  have hdpos : 0 < fusionDenom bm vec := le_max_left 1 _
  have hdQ : (0 : ℚ) < (fusionDenom bm vec : ℚ) := by exact_mod_cast hdpos
  have hratio : (FusionMeta.mk true (fusionOverlap bm vec) (fusionDenom bm vec)
      (fusionKAllow bm vec) (fusionAllowLow km bm vec).2).ratioQ =
      (fusionOverlap bm vec : ℚ) / (fusionDenom bm vec : ℚ) := rfl
  have hquarter : ((1 : ℚ)/4 ≤ (fusionOverlap bm vec : ℚ) / (fusionDenom bm vec : ℚ))
      ↔ fusionDenom bm vec ≤ 4 * fusionOverlap bm vec := by
    rw [div_le_div_iff₀ (by norm_num) hdQ]
    constructor
    · intro h
      have : (fusionDenom bm vec : ℚ) ≤ ((4 * fusionOverlap bm vec : ℕ) : ℚ) := by
        push_cast
        linarith
      exact_mod_cast this
    · intro h
      have : ((fusionDenom bm vec : ℕ) : ℚ) ≤ ((4 * fusionOverlap bm vec : ℕ) : ℚ) := by
        exact_mod_cast h
      push_cast at this
      linarith
  have hzero : ((fusionOverlap bm vec : ℚ) / (fusionDenom bm vec : ℚ) = 0)
      ↔ fusionOverlap bm vec = 0 := by
    rw [div_eq_zero_iff]
    constructor
    · rintro (h | h)
      · exact_mod_cast h
      · exact absurd h (ne_of_gt hdQ)
    · intro h; left; exact_mod_cast h
  have hpos : (0 < (fusionOverlap bm vec : ℚ) / (fusionDenom bm vec : ℚ))
      ↔ 0 < fusionOverlap bm vec := by
    rw [div_pos_iff]
    constructor
    · rintro (⟨h, _⟩ | ⟨_, h⟩)
      · exact_mod_cast h
      · exact absurd h (asymm hdQ)
    · intro h; left; exact ⟨by exact_mod_cast h, hdQ⟩
  refine ⟨?_, ?_, ?_, ?_⟩
  · rw [hratio]
    unfold fusionOverlap fusionDenom
    rw [h12bm, h12vec]
  · intro h
    rw [hratio] at h
    unfold fusionKAllow
    rw [if_pos (hquarter.mp h)]
  · rintro ⟨h0, hlt⟩
    rw [hratio] at h0 hlt
    unfold fusionKAllow
    rw [if_neg ?_, if_pos (hpos.mp h0)]
    intro hc
    exact absurd (hquarter.mpr hc) (not_le.mpr hlt)
  · intro h
    rw [hratio] at h
    have ho : fusionOverlap bm vec = 0 := hzero.mp h
    unfold fusionKAllow
    rw [if_neg (by omega), if_neg (by omega)]

/-- C3, counterexample to the claim as stated: with 9-element candidate
lists sharing only their 9th element, the code's ratio is 1/8 (full-list
intersection) while the claimed top-8-prefix formula gives 0; and with
disjoint one-element lists the ratio is 0 yet the result is not marked
low-confidence (the fused list being non-empty, no fallback fires). -/
theorem fusion_overlap_not_top8_cex :
    (build_fused_allowlist ["k"] ["a", "b", "c", "d", "e", "f", "g", "h", "z"]
        ["p", "q", "r", "s", "t", "u", "v", "w", "z"]).2.ratioQ = 1/8 ∧
    specOverlapRatioTop8 ["a", "b", "c", "d", "e", "f", "g", "h", "z"]
        ["p", "q", "r", "s", "t", "u", "v", "w", "z"] = 0 ∧
    (build_fused_allowlist ["k"] ["a"] ["b"]).2.ratioQ = 0 ∧
    (build_fused_allowlist ["k"] ["a"] ["b"]).2.lowConfidence = false := by
  refine ⟨?_, ?_, ?_, by decide⟩
  · have h1 : (build_fused_allowlist ["k"] ["a", "b", "c", "d", "e", "f", "g", "h", "z"]
        ["p", "q", "r", "s", "t", "u", "v", "w", "z"]).2.overlap = 1 := by decide
    have h2 : (build_fused_allowlist ["k"] ["a", "b", "c", "d", "e", "f", "g", "h", "z"]
        ["p", "q", "r", "s", "t", "u", "v", "w", "z"]).2.denomR = 8 := by decide
    unfold FusionMeta.ratioQ
    rw [h1, h2]
    norm_num
  · have h3 : overlapCount ((["a", "b", "c", "d", "e", "f", "g", "h", "z"] :
        List String).take 8) ((["p", "q", "r", "s", "t", "u", "v", "w", "z"] :
        List String).take 8) = 0 := by decide
    unfold specOverlapRatioTop8
    rw [h3]
    norm_num
  · have h4 : (build_fused_allowlist ["k"] ["a"] ["b"]).2.overlap = 0 := by decide
    unfold FusionMeta.ratioQ
    rw [h4]
    norm_num

/-- Witness for `fusion_overlap_tiering` at a concrete input. -/
theorem fusion_overlap_tiering_witness :
    (build_fused_allowlist [] ["a"] ["a"]).2.kAllow = 8 := by
  have h := fusion_overlap_tiering [] ["a"] ["a"]
  refine h.2.1 ?_
  rw [h.1]
  have ho : overlapCount ((["a"] : List String).take 12)
      ((["a"] : List String).take 12) = 1 := by decide
  rw [ho]
  norm_num

theorem is_control_cases (t : String) :
    DecisionFSM_is_control t = "" ∨ DecisionFSM_is_control t = "reset" ∨
      DecisionFSM_is_control t = "cancel" := by
  simp only [DecisionFSM_is_control]
  split_ifs <;> simp

/-- C6, amended: the FSM recognizes no `done` command — its only global
commands are `reset` and `cancel`, and the Chinese end-of-flow word `結束`
(a `done` equivalent) is in the cancel set.  Any cancel input sets
`active=false` and `finished=false` (not `finished=true`) while preserving
the stored partial answers, and, from an unfinished state, `finished=true`
can arise only from a non-command answer given at the last question
(step ≥ 2) — never from a command before the final step.  The claimed
`done ⇒ finished=true` behaviour is refuted by `fsm_no_done_command_cex`. -/
theorem fsm_cancel_preserves_answers_finished_only_at_end
    (s : DecisionState) (t : String) :
    (DecisionFSM_is_control t = "cancel" →
      (advance s t).1.active = false ∧ (advance s t).1.finished = false ∧
      (advance s t).1.answers = s.answers) ∧
    (s.finished = false → (advance s t).1.finished = true →
      DecisionFSM_is_control t = "" ∧ 2 ≤ s.step) ∧
    DecisionFSM_is_control "結束" = "cancel" := by
  have hqlen : questions.length = 3 := rfl
  refine ⟨?_, ?_, by decide⟩
  · intro hc
    simp [advance, hc]
  · intro hsf hfin
    rcases is_control_cases t with hcase | hcase | hcase
    · refine ⟨hcase, ?_⟩
      by_cases hinit : s.step = 0 ∧ s.last_question = ""
      · simp [advance, hcase, hinit, hsf] at hfin
      · by_cases hstep : questions.length ≤ s.step + 1
        · rw [hqlen] at hstep; omega
        · simp [advance, hcase, hinit, hstep] at hfin
          by_cases hlt : s.step < questions.length
          · simp [hlt, hsf] at hfin
          · simp [hlt, hsf] at hfin
    · simp [advance, hcase] at hfin
      exact absurd hfin (by simp [new_state])
    · simp [advance, hcase] at hfin

/-- C6, counterexample to the claim as stated: from a mid-conversation
state there is no `done`-like input that finishes with partial answers —
the `done` equivalent `結束` is treated as `cancel` (`finished=false`,
answers preserved), and the literal `done` is not a command at all (it is
stored as an answer and the FSM stays active and unfinished). -/
theorem fsm_no_done_command_cex :
    DecisionFSM_is_control "結束" = "cancel" ∧
    (advance ⟨true, 1, [("target", "光譜")], false, "q2"⟩ "結束").1.finished
      = false ∧
    (advance ⟨true, 1, [("target", "光譜")], false, "q2"⟩ "結束").1.answers =
      [("target", "光譜")] ∧
    (advance ⟨true, 1, [("target", "光譜")], false, "q2"⟩ "done").1.finished
      = false ∧
    (advance ⟨true, 1, [("target", "光譜")], false, "q2"⟩ "done").1.active
      = true := by
  refine ⟨by decide, by decide, by decide, by decide, by decide⟩

/-- Witness for `fsm_cancel_preserves_answers_finished_only_at_end` at
concrete inputs. -/
theorem fsm_cancel_preserves_answers_witness :
    ((advance ⟨true, 2, [("target", "光譜")], false, "q3"⟩ "取消").1.active
      = false ∧
    (advance ⟨true, 2, [("target", "光譜")], false, "q3"⟩ "取消").1.finished
      = false ∧
    (advance ⟨true, 2, [("target", "光譜")], false, "q3"⟩ "取消").1.answers =
      [("target", "光譜")]) ∧
    (DecisionFSM_is_control "好" = "" ∧
      2 ≤ (DecisionState.mk true 2 [("target", "光譜")] false "q3").step) :=
  ⟨(fsm_cancel_preserves_answers_finished_only_at_end
      ⟨true, 2, [("target", "光譜")], false, "q3"⟩ "取消").1 (by decide),
    (fsm_cancel_preserves_answers_finished_only_at_end
      ⟨true, 2, [("target", "光譜")], false, "q3"⟩ "好").2.1 (by decide) (by decide)⟩

theorem popLastMatching_none {p : String → Bool} :
    ∀ {bs : List String}, (∀ b ∈ bs, p b = false) →
      popLastMatching p bs = none := by
  intro bs
  induction bs with
  | nil => intro h; rfl
  | cons b tl ih =>
    intro h
    simp only [popLastMatching]
    rw [ih (fun x hx => h x (List.mem_cons_of_mem _ hx)),
      h b (List.mem_cons_self _ _)]
    simp

theorem dropLoopAux_no_match (p : String → Bool) (build : List String → String)
    (maxc : Nat) :
    ∀ (fuel : Nat) (blocks : List String), (∀ b ∈ blocks, p b = false) →
      dropLoopAux p build maxc fuel blocks = blocks := by
  intro fuel
  induction fuel with
  | zero => intro blocks h; rfl
  | succ n ih =>
    intro blocks h
    simp only [dropLoopAux]
    rw [popLastMatching_none h]
    split <;> rfl

theorem dropTailLoopAux_ge_two (build : List String → String) (maxc : Nat) :
    ∀ (fuel : Nat) (blocks : List String), 2 ≤ blocks.length →
      2 ≤ (dropTailLoopAux build maxc fuel blocks).length := by
  intro fuel
  induction fuel with
  | zero => intro blocks h; exact h
  | succ n ih =>
    intro blocks h
    simp only [dropTailLoopAux]
    by_cases hcond : maxc < (build blocks).length ∧ 2 < blocks.length
    · rw [if_pos hcond]
      apply ih
      have := List.length_dropLast blocks
      omega
    · rw [if_neg hcond]
      exact h

/-- C7, amended: only the FINAL any-kind dropping phase of the trimmer is
guarded to keep at least 2 blocks; the earlier vector-snippet and
catalog-summary phases can empty the list entirely (refuted as stated by
`trim_drops_below_two_blocks_cex`).  For inputs with no vector-snippet and
no catalog-summary blocks (so only the guarded phase can drop), an input of
at least 2 blocks always keeps at least 2 blocks, even when the rendered
prompt still exceeds the budget. -/
theorem trim_final_phase_keeps_two_blocks (context_blocks : List String)
    (build : List String → String) (max_chars : Nat)
    (hnd : ∀ b ∈ context_blocks, isRag b = false ∧ isDb b = false)
    (h2 : 2 ≤ context_blocks.length) :
    2 ≤ (prompt_guard_trim context_blocks build max_chars).1.length := by
  have hb1 : dropLoop isRag build max_chars context_blocks = context_blocks := by
    unfold dropLoop
    exact dropLoopAux_no_match _ _ _ _ _ (fun b hb => (hnd b hb).1)
  have hb2 : dropLoop isDb build max_chars context_blocks = context_blocks := by
    unfold dropLoop
    exact dropLoopAux_no_match _ _ _ _ _ (fun b hb => (hnd b hb).2)
  simp only [prompt_guard_trim, hb1, hb2]
  split_ifs with hA
  · exact h2
  · unfold dropTailLoop
    apply dropTailLoopAux_ge_two
    rw [List.length_map]
    exact h2

/-- C7, counterexample to the claim as stated: two vector-snippet blocks
and a budget of 1 — the first (unguarded) phase drops both, returning an
empty block list, below the claimed 2-block floor. -/
theorem trim_drops_below_two_blocks_cex :
    (prompt_guard_trim ["【資料片段：a】xxxx", "【資料片段：b】yyy"]
      String.join 1).1 = [] := by decide

/-- Witness for `trim_final_phase_keeps_two_blocks` at a concrete input. -/
theorem trim_final_phase_keeps_two_blocks_witness :
    2 ≤ (prompt_guard_trim ["aaaa", "bbbb"] String.join 1).1.length :=
  trim_final_phase_keeps_two_blocks ["aaaa", "bbbb"] String.join 1
    (by decide) (by decide)

/-- C8: in the BM25 scorer, for fixed document length `dl`, fixed average
length `avgdl`, fixed document frequency `df` (hence fixed idf) and fixed
query frequency `qf`, the per-term score contribution — and hence the
document score, a sum of such terms — is monotonically non-decreasing in the
raw term frequency `f`, under the conditions the source guarantees at the
call site (`dl > 0`, `avgdl > 0`, `0 < df ≤ N`, parameters `k1 = 1.5 > 0`,
`b = 0.75 ∈ [0,1]`). -/
theorem bm25_term_score_monotone_in_tf (N df qf : ℕ) (dl avgdl k1 b f1 f2 : ℝ)
    (hdfN : df ≤ N) (hdl : 0 < dl) (havg : 0 < avgdl) (hk1 : 0 < k1)
    (hb0 : 0 ≤ b) (hb1 : b ≤ 1) (hf0 : 0 ≤ f1) (hf : f1 ≤ f2) :
    bm25TermScore N df qf f1 dl avgdl k1 b ≤ bm25TermScore N df qf f2 dl avgdl k1 b := by
  unfold bm25TermScore
  have hdiv : 0 < dl / avgdl := div_pos hdl havg
  have hC : 0 < k1 * (1 - b + b * (dl / avgdl)) := by
    apply mul_pos hk1
    rcases lt_or_eq_of_le hb1 with hlt | heq
    · nlinarith [mul_nonneg hb0 hdiv.le]
    · rw [heq]
      simpa using hdiv
  have hg : f1 * (k1 + 1) / (f1 + k1 * (1 - b + b * (dl / avgdl))) ≤
      f2 * (k1 + 1) / (f2 + k1 * (1 - b + b * (dl / avgdl))) := by
    rw [div_le_div_iff₀ (by linarith) (by linarith)]
    nlinarith [mul_nonneg (le_of_lt hC) (sub_nonneg.2 hf)]
  have hidf : 0 ≤ Real.log (1 + ((N : ℝ) - (df : ℝ) + 0.5) / ((df : ℝ) + 0.5)) := by
    apply Real.log_nonneg
    have h1 : (0 : ℝ) < (df : ℝ) + 0.5 := by positivity
    have h2 : (0 : ℝ) ≤ ((N : ℝ) - (df : ℝ) + 0.5) := by
      have : (df : ℝ) ≤ (N : ℝ) := by exact_mod_cast hdfN
      linarith
    nlinarith [div_nonneg h2 (le_of_lt h1)]
  have hboost : (0 : ℝ) ≤ 1 + 0.15 * ((min 4 (qf - 1) : ℕ) : ℝ) := by positivity
  exact mul_le_mul_of_nonneg_right (mul_le_mul_of_nonneg_left hg hidf) hboost

/-- Witness for `bm25_term_score_monotone_in_tf` at concrete values. -/
theorem bm25_term_score_monotone_in_tf_witness :
    bm25TermScore 2 1 1 1 3 3 1.5 0.75 ≤ bm25TermScore 2 1 1 2 3 3 1.5 0.75 :=
  bm25_term_score_monotone_in_tf 2 1 1 3 3 1.5 0.75 1 2 (by norm_num)
    (by norm_num) (by norm_num) (by norm_num) (by norm_num) (by norm_num)
    (by norm_num) (by norm_num)

theorem trail_not_space {c : Char} (h : isTrailChar c = true) :
    isPySpace c = false := by
  unfold isTrailChar isAsciiLetter isAsciiDigit at h
  unfold isPySpace
  simp only [Bool.or_eq_true, Bool.and_eq_true, decide_eq_true_eq, beq_iff_eq] at h
  simp only [Bool.or_eq_false_iff, beq_eq_false_iff_ne, ne_eq]
  omega

theorem letter_trail {c : Char} (h : isAsciiLetter c = true) :
    isTrailChar c = true := by
  unfold isTrailChar; simp [h]

theorem digit_trail {c : Char} (h : isAsciiDigit c = true) :
    isTrailChar c = true := by
  unfold isTrailChar; simp [h]

theorem dropWhile_eq_self_of_all {p : Char → Bool} {l : List Char}
    (h : ∀ c ∈ l, p c = false) : l.dropWhile p = l := by
  cases l with
  | nil => rfl
  | cons a t =>
    rw [List.dropWhile_cons, h a (List.mem_cons_self _ _)]
    simp

theorem pyStripList_eq_self {l : List Char}
    (h : ∀ c ∈ l, isPySpace c = false) : pyStripList l = l := by
  unfold pyStripList
  rw [dropWhile_eq_self_of_all h,
    dropWhile_eq_self_of_all (fun c hc => h c (List.mem_reverse.mp hc))]
  exact List.reverse_reverse l

theorem goodModelToken_nonspace {l : List Char} (h : goodModelToken l) :
    ∀ c ∈ l, isPySpace c = false := by
  obtain ⟨L, H, d1, d2, rest, rfl, hLne, hLlet, hH, hd1, hd2, hrest⟩ := h
  intro c hc
  simp only [List.mem_append, List.mem_cons] at hc
  rcases hc with (hcL | hcH) | rfl | rfl | hcr
  · exact trail_not_space (letter_trail (hLlet c hcL))
  · rcases hH with rfl | rfl
    · simp at hcH
    · simp at hcH
      subst hcH
      exact trail_not_space (by decide)
  · exact trail_not_space (digit_trail hd1)
  · exact trail_not_space (digit_trail hd2)
  · exact trail_not_space (hrest c hcr)

theorem chooseEnd_mem {lastC : Char} :
    ∀ {tail rest keep : List Char}, chooseEnd lastC tail rest = some keep →
      ∀ c ∈ keep, c ∈ tail := by
  intro tail
  induction tail generalizing lastC with
  | nil =>
    intro rest keep h c hc
    simp only [chooseEnd] at h
    by_cases hb : bnd lastC rest.head? = true
    · rw [if_pos hb] at h
      cases h
      simp at hc
    · rw [if_neg hb] at h
      exact absurd h (by simp)
  | cons a tl ih =>
    intro rest keep h c hc
    simp only [chooseEnd] at h
    cases hrec : chooseEnd a tl rest with
    | some k =>
      rw [hrec] at h
      cases h
      rcases List.mem_cons.mp hc with rfl | hc2
      · exact List.mem_cons_self _ _
      · exact List.mem_cons_of_mem _ (ih hrec c hc2)
    | none =>
      rw [hrec] at h
      by_cases hb : bnd lastC (some a) = true
      · rw [if_pos hb] at h
        cases h
        simp at hc
      · rw [if_neg hb] at h
        exact absurd h (by simp)

theorem matchTok_good : ∀ {s tok : List Char}, matchTok s = some tok →
    goodModelToken tok := by
  intro s tok h
  simp only [matchTok] at h
  set L := s.takeWhile isAsciiLetter with hLdef
  set r1 := s.dropWhile isAsciiLetter with hr1def
  by_cases hLe : L.isEmpty = true
  · rw [if_pos hLe] at h
    exact absurd h (by simp)
  rw [if_neg hLe] at h
  set hypb := (match r1 with
    | '-' :: r1t => decide (2 ≤ (r1t.takeWhile isAsciiDigit).length)
    | _ => false) with hhyp
  set D := (if hypb = true then r1.tail else r1).takeWhile isAsciiDigit with hDdef
  by_cases hD2 : D.length < 2
  · rw [if_pos hD2] at h
    exact absurd h (by simp)
  rw [if_neg hD2] at h
  set T := ((if hypb = true then r1.tail else r1).dropWhile
    isAsciiDigit).takeWhile isTrailChar with hTdef
  set H := (if hypb = true then ['-'] else ([] : List Char)) with hHdef
  cases hce : chooseEnd ((L ++ H ++ D.take 2).getLastD ' ') (D.drop 2 ++ T)
      (List.dropWhile isTrailChar (List.dropWhile isAsciiDigit
        (if hypb = true then r1.tail else r1))) with
  | none =>
    rw [hce] at h
    exact absurd h (by simp)
  | some keep =>
    rw [hce] at h
    have htok : L ++ H ++ D.take 2 ++ keep = tok := by
      injection h
    have hDdig : ∀ c ∈ D, isAsciiDigit c = true := by
      intro c hc
      rw [hDdef] at hc
      exact List.mem_takeWhile_imp hc
    have hkeepTrail : ∀ c ∈ keep, isTrailChar c = true := by
      intro c hc
      have hmem := chooseEnd_mem hce c hc
      rcases List.mem_append.mp hmem with hd | ht
      · exact digit_trail (hDdig c (List.drop_subset _ _ hd))
      · rw [hTdef] at ht
        exact List.mem_takeWhile_imp ht
    obtain ⟨d1, d2, D', hD⟩ : ∃ d1 d2 D', D = d1 :: d2 :: D' := by
      match D, hD2 with
      | [], hD2 => simp at hD2
      | [d1], hD2 => simp at hD2
      | d1 :: d2 :: D', _ => exact ⟨d1, d2, D', rfl⟩
    refine ⟨L, H, d1, d2, keep, ?_, ?_, ?_, ?_, ?_, ?_, hkeepTrail⟩
    · rw [← htok, hD]
      simp
    · intro hnil
      rw [hnil] at hLe
      simp at hLe
    · intro c hc
      rw [hLdef] at hc
      exact List.mem_takeWhile_imp hc
    · rw [hHdef]
      by_cases hy : hypb = true
      · rw [if_pos hy]; right; rfl
      · rw [if_neg hy]; left; rfl
    · exact hDdig d1 (by rw [hD]; exact List.mem_cons_self _ _)
    · exact hDdig d2 (by rw [hD]; simp)

theorem findallAux_good : ∀ (fuel : Nat) (prev : Option Char) (s : List Char)
    (m : List Char), m ∈ findallAux fuel prev s → goodModelToken m := by
  intro fuel
  induction fuel with
  | zero => intro prev s m h; simp [findallAux] at h
  | succ n ih =>
    intro prev s m h
    cases s with
    | nil => simp [findallAux] at h
    | cons c rest =>
      simp only [findallAux] at h
      by_cases hok : (startBoundaryOk prev && isAsciiLetter c) = true
      · rw [if_pos hok] at h
        cases hmt : matchTok (c :: rest) with
        | some tok =>
          rw [hmt] at h
          rcases List.mem_cons.mp h with rfl | h2
          · exact matchTok_good hmt
          · exact ih _ _ _ h2
        | none =>
          rw [hmt] at h
          exact ih _ _ _ h
      · rw [if_neg hok] at h
        exact ih _ _ _ h

/-- C10: every model mention the detector extracts has the shape
"nonempty letter run, optional single hyphen, at least TWO consecutive
digits, then trailing-class characters only"; consequently a token of
letters followed by a single digit (such as `X5`) is never extracted from
any text, and an answer whose only model-like-looking token is of that
shape passes `enforce_allowlist_or_block` unblocked. -/
theorem model_mentions_require_two_digits :
    (∀ (text : String), ∀ m ∈ extract_model_mentions text, goodModelToken m.data) ∧
    (∀ text : String, "X5" ∉ extract_model_mentions text) ∧
    enforce_allowlist_or_block true "建議 X5 型" ["SRI-4000UVC"] =
      ("建議 X5 型", false, []) := by
  have hmain : ∀ (text : String), ∀ m ∈ extract_model_mentions text,
      goodModelToken m.data := by
    intro text m hm
    obtain ⟨hseen, y, hy, hstrip⟩ :=
      mem_dedupeByLowerAux (modelRegexFindall text) [] m hm
    obtain ⟨l0, hl0, rfl⟩ := List.mem_map.mp hy
    have hgood := findallAux_good _ _ _ _ hl0
    have hns := goodModelToken_nonspace hgood
    have hid : pyStrip ⟨l0⟩ = (⟨l0⟩ : String) := by
      unfold pyStrip
      rw [show (⟨l0⟩ : String).data = l0 from rfl, pyStripList_eq_self hns]
    rw [hstrip, hid]
    exact hgood
  refine ⟨hmain, ?_, by decide⟩
  intro text hmem
  have hg := hmain text "X5" hmem
  obtain ⟨L, H, d1, d2, rest, heq, hLne, -, -, -, -, -⟩ := hg
  have hlen : ("X5".data).length = (L ++ H ++ d1 :: d2 :: rest).length := by
    rw [heq]
  have h2 : ("X5".data).length = 2 := rfl
  rw [h2] at hlen
  simp [List.length_append] at hlen
  have hL1 : 0 < L.length := List.length_pos.mpr hLne
  omega

/-- Witness for `model_mentions_require_two_digits` at concrete inputs. -/
theorem model_mentions_require_two_digits_witness :
    goodModelToken ("SRI-4000UVC" : String).data ∧
    "X5" ∉ extract_model_mentions "請用 X5" :=
  ⟨model_mentions_require_two_digits.1 "SRI-4000UVC 很好" "SRI-4000UVC" (by decide),
    model_mentions_require_two_digits.2.1 "請用 X5"⟩

end ChatbotCore
